import Mathlib

/-!
# Verification of the NeoTrellis RGB I2C driver

A shallow embedding of `src/lib.rs` (crate `neotrellis_rgb`): the pure
index-translation functions, the event codec, the event iterator, and the
bus-facing driver operations.  Machine bytes (`u8`) are modelled as `Nat`
values below 256, with `% 256` inserted exactly where the source performs a
`u8` cast or where `u8` arithmetic can wrap.  The I2C bus and the
caller-supplied delay function are modelled by an explicit state carrying a
trace of bus events, an oracle for the bytes each read transaction returns,
and an oracle for which transactions fail with a transport error.  A Rust
panic (the `assert_eq!` in `initialize` and out-of-bounds slicing) is a
distinguished outcome, separate from transport-error propagation.
-/

set_option autoImplicit false
set_option maxRecDepth 8192

/-! ## Index translator (src/lib.rs lines 71-77) -/

/-- `fn neo_trellis_index(index: usize) -> u8 { (index as u8 / 4) * 8 + (index as u8 % 4) }`.
The `% 256` models the `as u8` truncating cast. -/
def neo_trellis_index (index : Nat) : Nat :=
  (index % 256 / 4) * 8 + index % 256 % 4

/-- `fn see_saw_index(index: u8) -> u8 { (index / 8) * 4 + (index % 8) }`.
For a `u8` argument the result is at most `31 * 4 + 7 = 131`, so no `u8`
wrap-around can occur and plain `Nat` arithmetic is exact. -/
def see_saw_index (index : Nat) : Nat :=
  (index / 8) * 4 + index % 8

/-! ## Event codec (src/lib.rs lines 87-118) -/

/-- `enum NeotrellisEventType { KeyPress, KeyRelease }` -/
inductive NeotrellisEventType where
  | KeyPress
  | KeyRelease
deriving DecidableEq, Repr

/-- `struct NeotrellisEvent { key_index: usize, event_type: NeotrellisEventType }` -/
structure NeotrellisEvent where
  key_index : Nat
  event_type : NeotrellisEventType
deriving DecidableEq, Repr

/-- `impl From<u8> for NeotrellisEvent` (src/lib.rs lines 107-118):
bit 0 selects release (0) / press (nonzero), and the key index is
`see_saw_index(input >> 2)`.  `input & 0x01` is `input % 2` and
`input >> 2` is `input / 4` on byte values. -/
def NeotrellisEvent.fromByte (input : Nat) : NeotrellisEvent :=
  { event_type := if input % 2 = 0 then .KeyRelease else .KeyPress
    key_index := see_saw_index (input / 4) }

/-- `struct NeotrellisEventIterator { index: usize, raw_events: &[u8] }` -/
structure NeotrellisEventIterator where
  index : Nat
  raw_events : List Nat
deriving DecidableEq, Repr

/-- `Iterator::next` for `NeotrellisEventIterator` (src/lib.rs lines 120-131):
returns `none` once the cursor has reached the slice length, otherwise decodes
the byte at the cursor and advances the cursor by one.  The pair carries the
mutated iterator state alongside the Rust return value. -/
def NeotrellisEventIterator.next (it : NeotrellisEventIterator) :
    Option NeotrellisEvent × NeotrellisEventIterator :=
  if it.index = it.raw_events.length then (none, it)
  else (some (NeotrellisEvent.fromByte (it.raw_events.getD it.index 0)),
        { it with index := it.index + 1 })

/-- Driving the iterator: call `next` up to `fuel` times, collecting the
decoded events until `next` signals end-of-sequence. -/
def NeotrellisEventIterator.collect : Nat → NeotrellisEventIterator → List NeotrellisEvent
  | 0, _ => []
  | fuel + 1, it =>
    match it.next with
    | (none, _) => []
    | (some e, it') => e :: it'.collect fuel

/-- With enough fuel, an iterator whose cursor sits at `idx ≤ length` yields
exactly the decoded remaining bytes, in order. -/
theorem collect_eq_map (fuel : Nat) (buf : List Nat) (idx : Nat)
    (hidx : idx ≤ buf.length) (hfuel : buf.length - idx ≤ fuel) :
    NeotrellisEventIterator.collect fuel { index := idx, raw_events := buf } =
      (buf.drop idx).map NeotrellisEvent.fromByte := by
  induction fuel generalizing idx with
  | zero =>
    have : idx = buf.length := by omega
    subst this
    simp [NeotrellisEventIterator.collect]
  | succ n ih =>
    by_cases h : idx = buf.length
    · subst h
      simp [NeotrellisEventIterator.collect, NeotrellisEventIterator.next]
    · have hlt : idx < buf.length := lt_of_le_of_ne hidx h
      rw [NeotrellisEventIterator.collect]
      simp only [NeotrellisEventIterator.next, if_neg h]
      rw [ih (idx + 1) hlt (by omega), List.drop_eq_getElem_cons hlt, List.map_cons]
      congr 1
      simp [List.getD, List.getElem?_eq_getElem hlt]

/-! ## Claims C1-C3 -/

/-- Claim C1: for every linear key index `i` in 0..15,
`see_saw_index (neo_trellis_index i) = i` — the two translation functions
round-trip over the 16-element domain, and `neo_trellis_index` maps into the
device's block-of-8 address set (addresses `x` with `x % 8 < 4` and `x < 32`). -/
theorem round_trip_index (i : Nat) (h : i < 16) :
    see_saw_index (neo_trellis_index i) = i ∧
    neo_trellis_index i % 8 < 4 ∧ neo_trellis_index i < 32 := by
  revert i h
  decide

/-- Witness for C1 at `i = 5`: `neo_trellis_index 5 = 9` and back to `5`. -/
theorem round_trip_index_witness :
    5 < 16 ∧ (see_saw_index (neo_trellis_index 5) = 5 ∧
      neo_trellis_index 5 % 8 < 4 ∧ neo_trellis_index 5 < 32) :=
  ⟨by decide, round_trip_index 5 (by decide)⟩

/-- Claim C2 counterexample: the raw event byte 255 decodes to
`key_index = see_saw_index 63 = 35`, which is not in 0..15, so the decoder
does produce an out-of-range caller-facing index on some byte. -/
theorem fromByte_out_of_range_at_255 :
    (NeotrellisEvent.fromByte 255).key_index = 35 ∧
    ¬ (NeotrellisEvent.fromByte 255).key_index < 16 := by
  decide

/-- Claim C2 (amended): for every byte `b` whose device-address field
`b >> 2` is a valid device key address — i.e. lies in the image of
`neo_trellis_index` over 0..15 — the decoded `key_index` is in 0..15. -/
theorem fromByte_key_index_lt_16 (b : Nat) (hb : b < 256)
    (hvalid : ∃ i, i < 16 ∧ b / 4 = neo_trellis_index i) :
    (NeotrellisEvent.fromByte b).key_index < 16 := by
  revert b
  decide

/-- Witness for amended C2 at `b = 37` (device address `37 >> 2 = 9 = neo_trellis_index 5`). -/
theorem fromByte_key_index_lt_16_witness :
    37 < 256 ∧ (∃ i, i < 16 ∧ 37 / 4 = neo_trellis_index i) ∧
    (NeotrellisEvent.fromByte 37).key_index < 16 :=
  ⟨by decide, ⟨5, by decide⟩, fromByte_key_index_lt_16 37 (by decide) ⟨5, by decide⟩⟩

/-- Claim C3: decoding is total over all 256 byte values (the decoder is a
total function), the decoded kind is `KeyPress` iff bit 0 of the byte is set
(`KeyRelease` iff it is clear), and the decoded key index is
`see_saw_index (b >> 2)`. -/
theorem fromByte_spec (b : Nat) (hb : b < 256) :
    ((NeotrellisEvent.fromByte b).event_type = .KeyPress ↔ b % 2 = 1) ∧
    ((NeotrellisEvent.fromByte b).event_type = .KeyRelease ↔ b % 2 = 0) ∧
    (NeotrellisEvent.fromByte b).key_index = see_saw_index (b / 4) := by
  revert b
  decide

/-- Witness for C3 at `b = 0b00000100`: a release event for key
`see_saw_index 1 = 1`. -/
theorem fromByte_spec_witness :
    4 < 256 ∧
    (((NeotrellisEvent.fromByte 4).event_type = .KeyPress ↔ 4 % 2 = 1) ∧
     ((NeotrellisEvent.fromByte 4).event_type = .KeyRelease ↔ 4 % 2 = 0) ∧
     (NeotrellisEvent.fromByte 4).key_index = see_saw_index 1) :=
  ⟨by decide, fromByte_spec 4 (by decide)⟩

/-! ## Bus model

The embedded-hal I2C capability and the caller-supplied delay function are
modelled by a state `BusState`: a trace of observable bus events, an oracle
`readData` giving the byte stream each read transaction returns, an oracle
`failAt` saying which transactions fail with a transport error, and a counter
`opCount` numbering the transactions issued so far. -/

/-- One observable action on the bus / delay capabilities. -/
inductive BusEvent where
  | write (addr : Nat) (data : List Nat)
  | read (addr : Nat) (len : Nat)
  | delay (us : Nat)
deriving DecidableEq, Repr

/-- The state threaded through every driver operation. -/
structure BusState where
  readData : Nat → Nat → Nat
  failAt : Nat → Bool
  opCount : Nat
  trace : List BusEvent

/-- Outcome of a driver operation: a returned value, a propagated transport
error (`Err(E)` in Rust), or a Rust panic (`assert_eq!` failure or
out-of-bounds slicing). -/
inductive DriverResult (α : Type) where
  | ok (a : α)
  | err
  | panic
deriving DecidableEq, Repr

/-- State-passing computations over the bus, with transport-error and panic
short-circuiting — the shape of a Rust `Result<α, E>` method body on a struct
owning the bus. -/
def DriverM (α : Type) : Type := BusState → DriverResult α × BusState

instance : Monad DriverM where
  pure a := fun s => (.ok a, s)
  bind m f := fun s =>
    match m s with
    | (.ok a, s') => f a s'
    | (.err, s') => (.err, s')
    | (.panic, s') => (.panic, s')

/-- `self.i2c.write(addr, bytes)`: records the transaction and consults the
failure oracle for its outcome. -/
def i2c_write (addr : Nat) (data : List Nat) : DriverM Unit := fun s =>
  (if s.failAt s.opCount then .err else .ok (),
   { s with opCount := s.opCount + 1, trace := s.trace ++ [.write addr data] })

/-- The `len` bytes the device supplies for read transaction number `op`
under the oracle `d` (reduced mod 256: the wire carries bytes). -/
def readBytes (d : Nat → Nat → Nat) (op len : Nat) : List Nat :=
  (List.range len).map fun i => d op i % 256

/-- `self.i2c.read(addr, buffer)` for a buffer of length `len`: records the
transaction and, on success, returns the bytes the device supplies for this
transaction. -/
def i2c_read (addr : Nat) (len : Nat) : DriverM (List Nat) := fun s =>
  (if s.failAt s.opCount then .err else .ok (readBytes s.readData s.opCount len),
   { s with opCount := s.opCount + 1, trace := s.trace ++ [.read addr len] })

/-- `(self.delay_function)(us)`: the caller-supplied blocking delay, observable
only as a trace event. -/
def call_delay (us : Nat) : DriverM Unit := fun s =>
  (.ok (), { s with trace := s.trace ++ [.delay us] })

/-- A Rust panic: `assert_eq!` failure or slice-index out of bounds. -/
def panicked {α : Type} : DriverM α := fun s => (.panic, s)

/-! ## Register constants (src/lib.rs lines 19-39) -/

def STATUS_REGISTER_BASE : Nat := 0x00
def KEYPAD_REGISTER_BASE : Nat := 0x10
def NEOPIXEL_REGISTER_BASE : Nat := 0x0E

def StatusRegister.HardwareId : Nat := 0x01

def KeypadRegister.Event : Nat := 0x01
def KeypadRegister.Count : Nat := 0x04
def KeypadRegister.Fifo : Nat := 0x10

def NeopixelRegister.Pin : Nat := 0x01
def NeopixelRegister.Speed : Nat := 0x02
def NeopixelRegister.BufferLength : Nat := 0x03
def NeopixelRegister.Buffer : Nat := 0x04
def NeopixelRegister.Show : Nat := 0x05

/-! ## Driver operations (src/lib.rs lines 65-311)

`struct Neotrellis` owns the i2c capability and the delay function (both
modelled by `BusState` / the trace) plus the 7-bit device address. -/

structure Neotrellis where
  address : Nat

/-- `Neotrellis::new`: address defaults to 0x2E unless overridden. -/
def Neotrellis.new (custom_address : Option Nat) : Neotrellis :=
  { address := custom_address.getD 0x2E }

/-- `hardware_id_write` (lines 199-202). -/
def Neotrellis.hardware_id_write (nt : Neotrellis) : DriverM Unit :=
  i2c_write nt.address [STATUS_REGISTER_BASE, StatusRegister.HardwareId]

/-- `hardware_id_read` (lines 205-210): reads one byte and returns it. -/
def Neotrellis.hardware_id_read (nt : Neotrellis) : DriverM Nat := do
  let read_buffer ← i2c_read nt.address 1
  pure (read_buffer.getD 0 0)

/-- `hardware_id` (lines 166-170): select-write, 500us delay, read. -/
def Neotrellis.hardware_id (nt : Neotrellis) : DriverM Nat := do
  nt.hardware_id_write
  call_delay 500
  nt.hardware_id_read

/-- `key_event_enable` (lines 212-221): enable rising and falling edge events
for one key, addressed by `neo_trellis_index`. -/
def Neotrellis.key_event_enable (nt : Neotrellis) (key_index : Nat) : DriverM Unit :=
  i2c_write nt.address
    [KEYPAD_REGISTER_BASE, KeypadRegister.Event, neo_trellis_index key_index, 0b00011001]

/-- `key_event_count_write` (lines 224-227). -/
def Neotrellis.key_event_count_write (nt : Neotrellis) : DriverM Unit :=
  i2c_write nt.address [KEYPAD_REGISTER_BASE, KeypadRegister.Count]

/-- `key_event_count_read` (lines 230-235): reads one byte and returns it. -/
def Neotrellis.key_event_count_read (nt : Neotrellis) : DriverM Nat := do
  let read_buffer ← i2c_read nt.address 1
  pure (read_buffer.getD 0 0)

/-- `key_event_count` (lines 192-196): select-write, 500us delay, read. -/
def Neotrellis.key_event_count (nt : Neotrellis) : DriverM Nat := do
  nt.key_event_count_write
  call_delay 500
  nt.key_event_count_read

/-- `key_event_iterate_write` (lines 238-241). -/
def Neotrellis.key_event_iterate_write (nt : Neotrellis) : DriverM Unit :=
  i2c_write nt.address [KEYPAD_REGISTER_BASE, KeypadRegister.Fifo]

/-- `key_event_iterate_read` (lines 245-248):
`self.i2c.read(self.address, &mut event_buffer[..count as usize])?` followed by
an iterator over `&event_buffer[..count as usize]`.  Slicing the caller's
buffer to `count` bytes panics when `count` exceeds its length, before any bus
transaction.  On success the first `count` bytes of the buffer are replaced by
the bytes read; the rest is untouched.  Returns the iterator together with the
mutated buffer. -/
def Neotrellis.key_event_iterate_read (nt : Neotrellis) (event_buffer : List Nat)
    (count : Nat) : DriverM (NeotrellisEventIterator × List Nat) := fun s =>
  if count ≤ event_buffer.length then
    match i2c_read nt.address count s with
    | (.ok bytes, s') =>
      (.ok ({ index := 0, raw_events := (bytes ++ event_buffer.drop count).take count },
            bytes ++ event_buffer.drop count), s')
    | (.err, s') => (.err, s')
    | (.panic, s') => (.panic, s')
  else
    (.panic, s)

/-- `key_event_iterate` (lines 179-188): query the pending-event count; when
zero, return an iterator over the empty slice `&event_buffer[..0]` without
touching the FIFO; otherwise FIFO select-write, 500us delay, FIFO read. -/
def Neotrellis.key_event_iterate (nt : Neotrellis) (event_buffer : List Nat) :
    DriverM (NeotrellisEventIterator × List Nat) := do
  let count ← nt.key_event_count
  if count = 0 then
    pure ({ index := 0, raw_events := event_buffer.take 0 }, event_buffer)
  else do
    nt.key_event_iterate_write
    call_delay 500
    nt.key_event_iterate_read event_buffer count

/-- `enable_leds` (lines 250-275): speed, buffer length 48, pin 3. -/
def Neotrellis.enable_leds (nt : Neotrellis) : DriverM Unit := do
  i2c_write nt.address [NEOPIXEL_REGISTER_BASE, NeopixelRegister.Speed, 0x01]
  i2c_write nt.address [NEOPIXEL_REGISTER_BASE, NeopixelRegister.BufferLength, 0, 16 * 3]
  i2c_write nt.address [NEOPIXEL_REGISTER_BASE, NeopixelRegister.Pin, 3]

/-- The 28-byte command `[0; 8 * 3 + 4]` of `clear_leds` after
`command[0] = NEOPIXEL_REGISTER_BASE; command[1] = NeopixelRegister::Buffer`. -/
def clearCommand : List Nat :=
  ((List.replicate (8 * 3 + 4) 0).set 0 NEOPIXEL_REGISTER_BASE).set 1 NeopixelRegister.Buffer

/-- `clear_leds` (lines 278-287): the 28-byte command is written, then byte 3
(the low offset) is set to 24 and the command is written again. -/
def Neotrellis.clear_leds (nt : Neotrellis) : DriverM Unit := do
  i2c_write nt.address clearCommand
  i2c_write nt.address (clearCommand.set 3 24)

/-- `set_led` (lines 290-302): one 7-byte write; offset low byte is the `u8`
product `3 * led_index` (hence the `% 256` wrap), color payload ordered
green, red, blue. -/
def Neotrellis.set_led (nt : Neotrellis) (led_index red green blue : Nat) : DriverM Unit :=
  i2c_write nt.address
    [NEOPIXEL_REGISTER_BASE, NeopixelRegister.Buffer, 0, 3 * (led_index % 256) % 256,
     green % 256, red % 256, blue % 256]

/-- `refresh_leds` (lines 307-310). -/
def Neotrellis.refresh_leds (nt : Neotrellis) : DriverM Unit :=
  i2c_write nt.address [NEOPIXEL_REGISTER_BASE, NeopixelRegister.Show]

/-- The loop `for key in 0..16 { self.key_event_enable(key)? }` of
`initialize`, unrolled by recursion: `enable_keys_loop n` enables keys
`0, 1, ..., n - 1` in ascending order. -/
def Neotrellis.enable_keys_loop (nt : Neotrellis) : Nat → DriverM Unit
  | 0 => pure ()
  | n + 1 => do
    nt.enable_keys_loop n
    nt.key_event_enable n

/-- `initialize` (lines 149-163): `assert_eq!(self.hardware_id()?, 0x55)` —
a panic, not a returned error, when the identity byte differs — then enable
all 16 keys in linear order, configure the LEDs, clear them, delay 300us and
refresh.  Named `initDriver` here because the source's name collides with a
reserved word of this development. -/
def Neotrellis.initDriver (nt : Neotrellis) : DriverM Unit := do
  let hid ← nt.hardware_id
  if hid = 0x55 then do
    nt.enable_keys_loop 16
    nt.enable_leds
    nt.clear_leds
    call_delay 300
    nt.refresh_leds
  else
    panicked

/-- Number of read transactions in a trace. -/
def readTransactions (tr : List BusEvent) : Nat :=
  (tr.filter fun e => match e with | .read _ _ => true | _ => false).length

/-! ## Run lemmas

Symbolic execution lemmas over a failure-free bus state, used to compute the
result and trace of each composite operation. -/

/-- A bus state on which no transaction fails: transport errors are a property
of the environment, and the success-path claims quantify over these states. -/
def noFailState (d : Nat → Nat → Nat) (c : Nat) (tr : List BusEvent) : BusState :=
  { readData := d, failAt := fun _ => false, opCount := c, trace := tr }

@[simp] theorem DriverM_bind_apply {α β : Type} (m : DriverM α) (f : α → DriverM β)
    (s : BusState) :
    (m >>= f) s =
      match m s with
      | (.ok a, s') => f a s'
      | (.err, s') => (.err, s')
      | (.panic, s') => (.panic, s') := rfl

@[simp] theorem DriverM_pure_apply {α : Type} (a : α) (s : BusState) :
    (pure a : DriverM α) s = (.ok a, s) := rfl

@[simp] theorem i2c_write_run (addr : Nat) (data : List Nat) (d : Nat → Nat → Nat)
    (c : Nat) (tr : List BusEvent) :
    i2c_write addr data (noFailState d c tr) =
      (.ok (), noFailState d (c + 1) (tr ++ [.write addr data])) := rfl

@[simp] theorem i2c_read_run (addr len : Nat) (d : Nat → Nat → Nat)
    (c : Nat) (tr : List BusEvent) :
    i2c_read addr len (noFailState d c tr) =
      (.ok (readBytes d c len), noFailState d (c + 1) (tr ++ [.read addr len])) := rfl

@[simp] theorem call_delay_run (us : Nat) (d : Nat → Nat → Nat)
    (c : Nat) (tr : List BusEvent) :
    call_delay us (noFailState d c tr) =
      (.ok (), noFailState d c (tr ++ [.delay us])) := rfl

@[simp] theorem readBytes_length (d : Nat → Nat → Nat) (op len : Nat) :
    (readBytes d op len).length = len := by
  simp [readBytes]

@[simp] theorem readBytes_one (d : Nat → Nat → Nat) (op : Nat) :
    readBytes d op 1 = [d op 0 % 256] := by
  simp [readBytes, List.range_succ]

/-- Running `key_event_count` on a failure-free bus: one select write, the
500us settle delay, one single-byte read returning the oracle's byte. -/
theorem key_event_count_run (nt : Neotrellis) (d : Nat → Nat → Nat) (c : Nat)
    (tr : List BusEvent) :
    nt.key_event_count (noFailState d c tr) =
      (.ok (d (c + 1) 0 % 256),
       noFailState d (c + 2)
         (tr ++ [.write nt.address [KEYPAD_REGISTER_BASE, KeypadRegister.Count],
                 .delay 500, .read nt.address 1])) := by
  simp [Neotrellis.key_event_count, Neotrellis.key_event_count_write,
    Neotrellis.key_event_count_read]

/-! ## Claim C4 -/

/-- A concrete driver at the default address 0x2E. -/
def nt0 : Neotrellis := Neotrellis.new none

/-- A concrete failure-free bus whose every read returns zero bytes. -/
def zeroBus : BusState := noFailState (fun _ _ => 0) 0 []

/-- Claim C4 counterexample: with the device reporting a pending-event count
of 0, `key_event_iterate` yields the empty sequence but performs exactly one
read transaction — the pending-count read issued by `key_event_count` — not
zero read transactions as claimed. -/
theorem key_event_iterate_zero_count_reads_once :
    (nt0.key_event_iterate (List.replicate 16 0) zeroBus).1 =
      .ok ({ index := 0, raw_events := [] }, List.replicate 16 0) ∧
    readTransactions ((nt0.key_event_iterate (List.replicate 16 0) zeroBus).2.trace) = 1 ∧
    readTransactions ((nt0.key_event_iterate (List.replicate 16 0) zeroBus).2.trace) ≠ 0 := by
  decide

/-- Claim C4 (amended): whenever the device's reported pending-event count is
0, `key_event_iterate` yields an empty event sequence and skips the FIFO read
entirely: the only read transaction it performs is the single pending-count
read, so the trace grows by exactly one read (and no FIFO-select write is
issued). -/
theorem key_event_iterate_count_zero (nt : Neotrellis) (buf : List Nat)
    (d : Nat → Nat → Nat) (c : Nat) (tr : List BusEvent)
    (hzero : d (c + 1) 0 % 256 = 0) :
    nt.key_event_iterate buf (noFailState d c tr) =
      (.ok ({ index := 0, raw_events := [] }, buf),
       noFailState d (c + 2)
         (tr ++ [.write nt.address [KEYPAD_REGISTER_BASE, KeypadRegister.Count],
                 .delay 500, .read nt.address 1])) ∧
    readTransactions ((nt.key_event_iterate buf (noFailState d c tr)).2.trace) =
      readTransactions tr + 1 := by
  have h1 : nt.key_event_iterate buf (noFailState d c tr) =
      (.ok ({ index := 0, raw_events := [] }, buf),
       noFailState d (c + 2)
         (tr ++ [.write nt.address [KEYPAD_REGISTER_BASE, KeypadRegister.Count],
                 .delay 500, .read nt.address 1])) := by
    simp [Neotrellis.key_event_iterate, key_event_count_run, hzero]
  refine ⟨h1, ?_⟩
  rw [h1]
  simp [noFailState, readTransactions, List.filter_append]

/-- Witness for amended C4: the concrete zero-reporting bus. -/
theorem key_event_iterate_count_zero_witness :
    (fun _ _ => 0 : Nat → Nat → Nat) (0 + 1) 0 % 256 = 0 ∧
    (nt0.key_event_iterate (List.replicate 16 0) (noFailState (fun _ _ => 0) 0 []) =
      (.ok ({ index := 0, raw_events := [] }, List.replicate 16 0),
       noFailState (fun _ _ => 0) (0 + 2)
         ([] ++ [.write nt0.address [KEYPAD_REGISTER_BASE, KeypadRegister.Count],
                 .delay 500, .read nt0.address 1])) ∧
     readTransactions
       ((nt0.key_event_iterate (List.replicate 16 0)
          (noFailState (fun _ _ => 0) 0 [])).2.trace) = readTransactions [] + 1) :=
  ⟨by decide, key_event_iterate_count_zero nt0 (List.replicate 16 0) (fun _ _ => 0) 0 []
    (by decide)⟩

/-! ## Claim C5 -/

@[simp] theorem take_readBytes_append (d : Nat → Nat → Nat) (op n : Nat) (l : List Nat) :
    (readBytes d op n ++ l).take n = readBytes d op n :=
  List.take_left' (readBytes_length d op n)

/-- Claim C5: whenever the device reports a pending-event count `N > 0` and
the caller's buffer holds at least `N` bytes, `key_event_iterate` reads
exactly `N` bytes from the FIFO into the front of the caller's buffer (one
`read` transaction of length `N`, after the count query and the FIFO select
write), and driving the returned iterator yields exactly the `N` decoded
events `fromByte buffer[0], ..., fromByte buffer[N-1]` in buffer order before
signalling end-of-sequence. -/
theorem key_event_iterate_count_pos (nt : Neotrellis) (buf : List Nat)
    (d : Nat → Nat → Nat) (c : Nat) (tr : List BusEvent) (N : Nat)
    (hN : d (c + 1) 0 % 256 = N) (hpos : 0 < N) (hlen : N ≤ buf.length) :
    nt.key_event_iterate buf (noFailState d c tr) =
      (.ok ({ index := 0, raw_events := readBytes d (c + 3) N },
            readBytes d (c + 3) N ++ buf.drop N),
       noFailState d (c + 4)
         (tr ++ [.write nt.address [KEYPAD_REGISTER_BASE, KeypadRegister.Count],
                 .delay 500, .read nt.address 1,
                 .write nt.address [KEYPAD_REGISTER_BASE, KeypadRegister.Fifo],
                 .delay 500, .read nt.address N])) ∧
    (readBytes d (c + 3) N).length = N ∧
    (∀ fuel, N ≤ fuel →
      NeotrellisEventIterator.collect fuel { index := 0, raw_events := readBytes d (c + 3) N } =
        (readBytes d (c + 3) N).map NeotrellisEvent.fromByte) := by
  have hne : ¬ N = 0 := by omega
  refine ⟨?_, readBytes_length d (c + 3) N, ?_⟩
  · simp [Neotrellis.key_event_iterate, key_event_count_run, hN, hne,
      Neotrellis.key_event_iterate_write, Neotrellis.key_event_iterate_read, hlen]
  · intro fuel hfuel
    have h := collect_eq_map fuel (readBytes d (c + 3) N) 0 (Nat.zero_le _)
      (by simp; omega)
    simpa using h

/-- Witness for C5: a device reporting a count of 2, every read byte 2; the
two FIFO bytes decode to two release events for key `see_saw_index 0 = 0`. -/
theorem key_event_iterate_count_pos_witness :
    (fun _ _ => 2 : Nat → Nat → Nat) (0 + 1) 0 % 256 = 2 ∧ 0 < 2 ∧
    2 ≤ (List.replicate 16 0 : List Nat).length ∧
    nt0.key_event_iterate (List.replicate 16 0) (noFailState (fun _ _ => 2) 0 []) =
      (.ok ({ index := 0, raw_events := readBytes (fun _ _ => 2) 3 2 },
            readBytes (fun _ _ => 2) 3 2 ++ (List.replicate 16 0).drop 2),
       noFailState (fun _ _ => 2) 4
         ([] ++ [.write nt0.address [KEYPAD_REGISTER_BASE, KeypadRegister.Count],
                 .delay 500, .read nt0.address 1,
                 .write nt0.address [KEYPAD_REGISTER_BASE, KeypadRegister.Fifo],
                 .delay 500, .read nt0.address 2])) ∧
    NeotrellisEventIterator.collect 2 { index := 0, raw_events := readBytes (fun _ _ => 2) 3 2 } =
      (readBytes (fun _ _ => 2) 3 2).map NeotrellisEvent.fromByte :=
  ⟨by decide, by decide, by decide,
   (key_event_iterate_count_pos nt0 (List.replicate 16 0) (fun _ _ => 2) 0 [] 2
     (by decide) (by decide) (by decide)).1,
   (key_event_iterate_count_pos nt0 (List.replicate 16 0) (fun _ _ => 2) 0 [] 2
     (by decide) (by decide) (by decide)).2.2 2 (by decide)⟩

/-! ## Claims C6 and C7 -/

/-- Claim C6: for every valid LED index and byte-valued color channels,
`set_led` emits exactly one bus write whose 7-byte payload is
`[NEOPIXEL base, Buffer sub-register, offset_hi = 0, offset_lo = 3 * index,
green, red, blue]` — the color channels ordered green, red, blue. -/
theorem set_led_run (nt : Neotrellis) (idx r g b : Nat)
    (hidx : idx < 16) (hr : r < 256) (hg : g < 256) (hb : b < 256)
    (d : Nat → Nat → Nat) (c : Nat) (tr : List BusEvent) :
    nt.set_led idx r g b (noFailState d c tr) =
      (.ok (), noFailState d (c + 1)
        (tr ++ [.write nt.address
          [NEOPIXEL_REGISTER_BASE, NeopixelRegister.Buffer, 0, 3 * idx, g, r, b]])) ∧
    [NEOPIXEL_REGISTER_BASE, NeopixelRegister.Buffer, 0, 3 * idx, g, r, b].length = 7 := by
  have h1 : idx % 256 = idx := Nat.mod_eq_of_lt (by omega)
  have h2 : 3 * idx % 256 = 3 * idx := Nat.mod_eq_of_lt (by omega)
  have h3 : r % 256 = r := Nat.mod_eq_of_lt hr
  have h4 : g % 256 = g := Nat.mod_eq_of_lt hg
  have h5 : b % 256 = b := Nat.mod_eq_of_lt hb
  refine ⟨?_, by simp⟩
  simp [Neotrellis.set_led, h1, h2, h3, h4, h5]

/-- Witness for C6 at `set_led 5 10 20 30`: the claim's concrete payload
`[offset_hi = 0, offset_lo = 15, green = 20, red = 10, blue = 30]` after the
two register-select bytes. -/
theorem set_led_run_witness :
    5 < 16 ∧ 10 < 256 ∧ 20 < 256 ∧ 30 < 256 ∧
    nt0.set_led 5 10 20 30 zeroBus =
      (.ok (), noFailState (fun _ _ => 0) (0 + 1)
        ([] ++ [.write nt0.address
          [NEOPIXEL_REGISTER_BASE, NeopixelRegister.Buffer, 0, 15, 20, 10, 30]])) :=
  ⟨by decide, by decide, by decide, by decide,
   (set_led_run nt0 5 10 20 30 (by decide) (by decide) (by decide) (by decide)
     (fun _ _ => 0) 0 []).1⟩

/-- Claim C7: `clear_leds` emits exactly two bus writes; each carries the
28-byte command whose last 24 bytes are the color payload, all zero (48 zero
color bytes in total), with offset bytes 0 in the first write and low offset
byte 24 in the second. -/
theorem clear_leds_run (nt : Neotrellis) (d : Nat → Nat → Nat) (c : Nat)
    (tr : List BusEvent) :
    nt.clear_leds (noFailState d c tr) =
      (.ok (), noFailState d (c + 2)
        (tr ++ [.write nt.address clearCommand,
                .write nt.address (clearCommand.set 3 24)])) ∧
    clearCommand.length = 28 ∧ (clearCommand.set 3 24).length = 28 ∧
    clearCommand.drop 4 = List.replicate 24 0 ∧
    (clearCommand.set 3 24).drop 4 = List.replicate 24 0 ∧
    clearCommand.getD 2 1 = 0 ∧ clearCommand.getD 3 1 = 0 ∧
    (clearCommand.set 3 24).getD 2 1 = 0 ∧ (clearCommand.set 3 24).getD 3 1 = 24 := by
  refine ⟨?_, by decide, by decide, by decide, by decide, by decide, by decide,
    by decide, by decide⟩
  simp [Neotrellis.clear_leds]

/-- Witness for C7 on a concrete failure-free bus. -/
theorem clear_leds_run_witness :
    nt0.clear_leds zeroBus =
      (.ok (), noFailState (fun _ _ => 0) (0 + 2)
        ([] ++ [.write nt0.address clearCommand,
                .write nt0.address (clearCommand.set 3 24)])) :=
  (clear_leds_run nt0 (fun _ _ => 0) 0 []).1

/-! ## Claim C8 -/

/-- Running `hardware_id` on a failure-free bus: identity select write, the
500us settle delay, one single-byte read returning the oracle's byte. -/
theorem hardware_id_run (nt : Neotrellis) (d : Nat → Nat → Nat) (c : Nat)
    (tr : List BusEvent) :
    nt.hardware_id (noFailState d c tr) =
      (.ok (d (c + 1) 0 % 256),
       noFailState d (c + 2)
         (tr ++ [.write nt.address [STATUS_REGISTER_BASE, StatusRegister.HardwareId],
                 .delay 500, .read nt.address 1])) := by
  simp [Neotrellis.hardware_id, Neotrellis.hardware_id_write,
    Neotrellis.hardware_id_read]

/-- Running the key-enable loop on a failure-free bus: one write per key, in
ascending key order. -/
theorem enable_keys_loop_run (nt : Neotrellis) (n : Nat) (d : Nat → Nat → Nat)
    (c : Nat) (tr : List BusEvent) :
    nt.enable_keys_loop n (noFailState d c tr) =
      (.ok (), noFailState d (c + n)
        (tr ++ (List.range n).map fun k =>
          .write nt.address [KEYPAD_REGISTER_BASE, KeypadRegister.Event,
            neo_trellis_index k, 0b00011001])) := by
  induction n generalizing c tr with
  | zero => simp [Neotrellis.enable_keys_loop]
  | succ m ih =>
    rw [Neotrellis.enable_keys_loop, DriverM_bind_apply, ih]
    simp [Neotrellis.key_event_enable, List.range_succ, List.append_assoc]
    rw [Nat.add_assoc]

set_option maxHeartbeats 2000000 in
/-- Claim C8: when the hardware-identity byte read during `initialize` is any
value other than 0x55, the assertion fails — a panic, not a returned error —
and no bus transaction follows the identity read; when the byte equals 0x55
the assertion does not fire and initialization runs to completion. -/
theorem initDriver_identity_check (nt : Neotrellis) (d : Nat → Nat → Nat)
    (c : Nat) (tr : List BusEvent) :
    (d (c + 1) 0 % 256 ≠ 0x55 →
      nt.initDriver (noFailState d c tr) =
        (.panic, noFailState d (c + 2)
          (tr ++ [.write nt.address [STATUS_REGISTER_BASE, StatusRegister.HardwareId],
                  .delay 500, .read nt.address 1]))) ∧
    (d (c + 1) 0 % 256 = 0x55 →
      (nt.initDriver (noFailState d c tr)).1 = .ok ()) := by
  constructor
  · intro hne
    simp [Neotrellis.initDriver, hardware_id_run, hne, panicked]
  · intro heq
    simp [Neotrellis.initDriver, hardware_id_run, heq, enable_keys_loop_run,
      Neotrellis.enable_leds, Neotrellis.clear_leds, Neotrellis.refresh_leds]

/-- Witness for C8: identity byte 0x54 panics right after the identity read;
identity byte 0x55 initializes successfully. -/
theorem initDriver_identity_check_witness :
    ((fun _ _ => 0x54 : Nat → Nat → Nat) (0 + 1) 0 % 256 ≠ 0x55 ∧
      nt0.initDriver (noFailState (fun _ _ => 0x54) 0 []) =
        (.panic, noFailState (fun _ _ => 0x54) (0 + 2)
          ([] ++ [.write nt0.address [STATUS_REGISTER_BASE, StatusRegister.HardwareId],
                  .delay 500, .read nt0.address 1]))) ∧
    ((fun _ _ => 0x55 : Nat → Nat → Nat) (0 + 1) 0 % 256 = 0x55 ∧
      (nt0.initDriver (noFailState (fun _ _ => 0x55) 0 [])).1 = .ok ()) :=
  ⟨⟨by decide, (initDriver_identity_check nt0 (fun _ _ => 0x54) 0 []).1 (by decide)⟩,
   ⟨by decide, (initDriver_identity_check nt0 (fun _ _ => 0x55) 0 []).2 (by decide)⟩⟩

/-! ## Claims C9 and C10 -/

/-- Claim C9: when the caller's buffer holds at least `count` bytes, slicing
it to its first `count` bytes is in bounds and `key_event_iterate_read`
cannot panic — it fails exactly when the bus transaction reports a transport
error, which is propagated; when the buffer is shorter than `count`, the
slicing is an out-of-bounds panic (a caller contract violation), issued
before any bus transaction and leaving the bus state untouched. -/
theorem key_event_iterate_read_bounds (nt : Neotrellis) (buf : List Nat)
    (count : Nat) (s : BusState) :
    (count ≤ buf.length →
      (nt.key_event_iterate_read buf count s).1 ≠ DriverResult.panic ∧
      ((nt.key_event_iterate_read buf count s).1 =
          (DriverResult.err : DriverResult (NeotrellisEventIterator × List Nat)) ↔
        s.failAt s.opCount = true)) ∧
    (buf.length < count →
      nt.key_event_iterate_read buf count s = (DriverResult.panic, s)) := by
  constructor
  · intro hle
    unfold Neotrellis.key_event_iterate_read
    rw [if_pos hle]
    cases hfa : s.failAt s.opCount <;> simp [i2c_read, hfa]
  · intro hlt
    unfold Neotrellis.key_event_iterate_read
    rw [if_neg (by omega)]

/-- Witness for C9: a 16-byte buffer accepts a 4-byte FIFO read without
panicking; a 2-byte buffer with a reported count of 5 panics with the bus
state untouched. -/
theorem key_event_iterate_read_bounds_witness :
    (4 ≤ (List.replicate 16 0 : List Nat).length ∧
      (nt0.key_event_iterate_read (List.replicate 16 0) 4 zeroBus).1 ≠
        DriverResult.panic) ∧
    ((List.replicate 2 0 : List Nat).length < 5 ∧
      nt0.key_event_iterate_read (List.replicate 2 0) 5 zeroBus =
        (DriverResult.panic, zeroBus)) :=
  ⟨⟨by decide,
    ((key_event_iterate_read_bounds nt0 (List.replicate 16 0) 4 zeroBus).1
      (by decide)).1⟩,
   ⟨by decide,
    (key_event_iterate_read_bounds nt0 (List.replicate 2 0) 5 zeroBus).2
      (by decide)⟩⟩

/-- Claim C10: for every byte buffer, the event iterator keeps its cursor at
or below the buffer length: each `next` call either returns one decoded event
and advances the cursor by one, or returns `none` exactly when the cursor has
reached the length — and then leaves the iterator unchanged, so every
subsequent call also returns `none` (the iterator is fused); driving a fresh
iterator to the end yields each logically valid byte exactly once, decoded in
order. -/
theorem iterator_cursor_invariant (it : NeotrellisEventIterator)
    (h : it.index ≤ it.raw_events.length) :
    it.next.2.index ≤ it.raw_events.length ∧
    it.next.2.raw_events = it.raw_events ∧
    (it.index = it.raw_events.length → it.next = (none, it)) ∧
    (it.index < it.raw_events.length →
      it.next.1 = some (NeotrellisEvent.fromByte (it.raw_events.getD it.index 0)) ∧
      it.next.2.index = it.index + 1) ∧
    (∀ fuel, it.raw_events.length ≤ fuel →
      NeotrellisEventIterator.collect fuel { index := 0, raw_events := it.raw_events } =
        it.raw_events.map NeotrellisEvent.fromByte) := by
  refine ⟨?_, ?_, ?_, ?_, ?_⟩
  · by_cases he : it.index = it.raw_events.length
    · simp [NeotrellisEventIterator.next, he]
    · simp only [NeotrellisEventIterator.next, if_neg he]
      omega
  · by_cases he : it.index = it.raw_events.length <;>
      simp [NeotrellisEventIterator.next, he]
  · intro he
    simp [NeotrellisEventIterator.next, he]
  · intro hlt
    simp [NeotrellisEventIterator.next, Nat.ne_of_lt hlt]
  · intro fuel hfuel
    have hc := collect_eq_map fuel it.raw_events 0 (Nat.zero_le _) (by omega)
    simpa using hc

/-- Witness for C10 on the two-byte buffer `[4, 5]`. -/
theorem iterator_cursor_invariant_witness :
    0 ≤ ([4, 5] : List Nat).length ∧
    ({ index := 0, raw_events := [4, 5] } : NeotrellisEventIterator).next.2.index ≤ 2 ∧
    NeotrellisEventIterator.collect 2 { index := 0, raw_events := [4, 5] } =
      ([4, 5] : List Nat).map NeotrellisEvent.fromByte :=
  ⟨by decide,
   (iterator_cursor_invariant { index := 0, raw_events := [4, 5] } (by decide)).1,
   (iterator_cursor_invariant { index := 0, raw_events := [4, 5] }
     (by decide)).2.2.2.2 2 (by decide)⟩
